/-
Verification of the mypyc backend sources (mypyc/ops.py, mypyc/sametype.py,
mypyc/emitfunc.py, mypyc/emitmodule.py) against their natural-language
specification.  The Python classes and functions are shallowly embedded as
Lean definitions; theorems below settle the spec's claims about them.
-/
import Mathlib

set_option maxHeartbeats 1000000

namespace Mypyc

/-!
## Runtime types (mypyc/ops.py)

`RType` is the closed family of runtime representations: `RPrimitive`
(identified by `name`, carrying the C storage type `ctype` chosen at
construction), fixed-length `RTuple` over an ordered list of element types,
`RInstance` (whose `name` is its class's name) and `ROptional` wrapping a
value type.  The `is_unboxed`/`is_refcounted` flags of the source are not
consulted by any of the operations modelled here and are omitted.
-/

inductive RType where
  | rprimitive (name : String) (ctype : String)
  | rtuple (types : List RType)
  | rinstance (name : String)
  | roptional (value_type : RType)

/-- `RPrimitive.__init__` derives the undefined sentinel from the ctype and
asserts on any unrecognized ctype; assertion failure is modelled as `none`. -/
def c_undefined_of_ctype (ctype : String) : Option String :=
  if ctype == "CPyTagged" then some "CPY_INT_TAG"
  else if ctype == "PyObject *" then some "NULL"
  else if ctype == "char" then some "2"
  else none

/-- The primitive registry of ops.py (each constructed with the default
ctype `PyObject *` unless stated otherwise in the source). -/
def object_rprimitive : RType := .rprimitive "builtins.object" "PyObject *"

def int_rprimitive : RType := .rprimitive "builtins.int" "CPyTagged"

def bool_rprimitive : RType := .rprimitive "builtins.bool" "char"

def none_rprimitive : RType := .rprimitive "builtins.None" "PyObject *"

def list_rprimitive : RType := .rprimitive "builtins.list" "PyObject *"

def dict_rprimitive : RType := .rprimitive "builtins.dict" "PyObject *"

def str_rprimitive : RType := .rprimitive "builtins.str" "PyObject *"

def tuple_rprimitive : RType := .rprimitive "builtins.tuple" "PyObject *"

/-!
## Structural type equality (mypyc/sametype.py)

`is_same_type a b` is `a.accept(SameTypeVisitor(b))`: dispatch on the left
type, then an isinstance check on the right type.  The tuple case checks
`len(self.right.types) == len(left.types)` and then
`all(is_same_type(t1, t2) for t1, t2 in zip(left.types, self.right.types))`;
the generator over `zip` is modelled by `sameZipAll` (which, like `zip`,
stops at the shorter list).
-/

mutual

def is_same_type (a b : RType) : Bool :=
  match a, b with
  | .rinstance n₁, .rinstance n₂ => n₁ == n₂
  | .rinstance _, _ => false
  | .roptional v₁, .roptional v₂ => is_same_type v₁ v₂
  | .roptional _, _ => false
  | .rprimitive n₁ _, .rprimitive n₂ _ => n₁ == n₂
  | .rprimitive _ _, _ => false
  | .rtuple ts₁, .rtuple ts₂ => (ts₂.length == ts₁.length) && sameZipAll ts₁ ts₂
  | .rtuple _, _ => false
termination_by sizeOf a

def sameZipAll (l₁ l₂ : List RType) : Bool :=
  match l₁, l₂ with
  | t₁ :: r₁, t₂ :: r₂ => is_same_type t₁ t₂ && sameZipAll r₁ r₂
  | _, _ => true
termination_by sizeOf l₁

end

example : is_same_type int_rprimitive int_rprimitive = true := by
  simp [is_same_type, int_rprimitive]

example : is_same_type (.rtuple [int_rprimitive, bool_rprimitive])
    (.rtuple [int_rprimitive, bool_rprimitive]) = true := by
  simp [is_same_type, sameZipAll, int_rprimitive, bool_rprimitive]

example : is_same_type (.rprimitive "tuple" "PyObject *") (.rtuple []) = false := by
  simp [is_same_type]

theorem beq_swap {α : Type _} [BEq α] [LawfulBEq α] (a b : α) : (a == b) = (b == a) := by
  by_cases h : a = b
  · subst h; rfl
  · rw [beq_eq_false_iff_ne.mpr h, beq_eq_false_iff_ne.mpr (Ne.symm h)]

mutual

theorem is_same_type_refl (a : RType) : is_same_type a a = true := by
  match a with
  | .rinstance n => simp [is_same_type]
  | .roptional v => simpa [is_same_type] using is_same_type_refl v
  | .rprimitive n c => simp [is_same_type]
  | .rtuple ts =>
      simp only [is_same_type, beq_self_eq_true, Bool.true_and]
      exact sameZipAll_refl ts
termination_by sizeOf a

theorem sameZipAll_refl (l : List RType) : sameZipAll l l = true := by
  match l with
  | [] => simp [sameZipAll]
  | t :: r =>
      simp only [sameZipAll, Bool.and_eq_true]
      exact ⟨is_same_type_refl t, sameZipAll_refl r⟩
termination_by sizeOf l

end

mutual

theorem is_same_type_symm (a b : RType) : is_same_type a b = is_same_type b a := by
  match a, b with
  | .rinstance n₁, .rinstance n₂ => simp only [is_same_type]; exact beq_swap n₁ n₂
  | .rinstance _, .rprimitive _ _ => simp [is_same_type]
  | .rinstance _, .roptional _ => simp [is_same_type]
  | .rinstance _, .rtuple _ => simp [is_same_type]
  | .roptional v₁, .roptional v₂ =>
      simp only [is_same_type]; exact is_same_type_symm v₁ v₂
  | .roptional _, .rprimitive _ _ => simp [is_same_type]
  | .roptional _, .rinstance _ => simp [is_same_type]
  | .roptional _, .rtuple _ => simp [is_same_type]
  | .rprimitive n₁ _, .rprimitive n₂ _ => simp only [is_same_type]; exact beq_swap n₁ n₂
  | .rprimitive _ _, .rinstance _ => simp [is_same_type]
  | .rprimitive _ _, .roptional _ => simp [is_same_type]
  | .rprimitive _ _, .rtuple _ => simp [is_same_type]
  | .rtuple ts₁, .rtuple ts₂ =>
      simp only [is_same_type]
      rw [beq_swap ts₂.length ts₁.length, sameZipAll_symm ts₁ ts₂]
  | .rtuple _, .rprimitive _ _ => simp [is_same_type]
  | .rtuple _, .rinstance _ => simp [is_same_type]
  | .rtuple _, .roptional _ => simp [is_same_type]
termination_by sizeOf a

theorem sameZipAll_symm (l₁ l₂ : List RType) : sameZipAll l₁ l₂ = sameZipAll l₂ l₁ := by
  match l₁, l₂ with
  | [], [] => rfl
  | [], _ :: _ => simp [sameZipAll]
  | _ :: _, [] => simp [sameZipAll]
  | t₁ :: r₁, t₂ :: r₂ =>
      simp only [sameZipAll]
      rw [is_same_type_symm t₁ t₂, sameZipAll_symm r₁ r₂]
termination_by sizeOf l₁

end

/-- Constructor tag of an `RType`, used to state the cross-variant parts of
the claims (two types are of different variants iff their tags differ). -/
def RType.variantTag : RType → Nat
  | .rprimitive _ _ => 0
  | .rtuple _ => 1
  | .rinstance _ => 2
  | .roptional _ => 3

theorem is_same_type_cross_variant (a b : RType)
    (h : RType.variantTag a ≠ RType.variantTag b) : is_same_type a b = false := by
  cases a <;> cases b <;> (try simp [RType.variantTag] at h) <;> simp [is_same_type]

/-- C4: `is_same_type` is reflexive, symmetric, and variant-discriminating:
for all RTypes `a` and `b`, `is_same_type a a` holds, `is_same_type a b`
equals `is_same_type b a`, and whenever `a` and `b` are different variants
(Primitive, Instance, Optional, Tuple — i.e. their constructor tags differ)
`is_same_type a b` is false, regardless of any name coincidence. -/
theorem C4_is_same_type_refl_symm_variant_discriminating :
    ∀ a b : RType,
      is_same_type a a = true
      ∧ is_same_type a b = is_same_type b a
      ∧ (RType.variantTag a ≠ RType.variantTag b → is_same_type a b = false) :=
  fun a b =>
    ⟨is_same_type_refl a, is_same_type_symm a b, is_same_type_cross_variant a b⟩

/-- Witness for C4 at a concrete input: a Primitive and an Instance that share
the name `"x"` are still not the same type. -/
theorem C4_witness :
    is_same_type (.rprimitive "x" "PyObject *") (.rinstance "x") = false :=
  (C4_is_same_type_refl_symm_variant_discriminating
    (.rprimitive "x" "PyObject *") (.rinstance "x")).2.2 (by decide)

theorem sameZipAll_iff : ∀ (l₁ l₂ : List RType), l₁.length = l₂.length →
    (sameZipAll l₁ l₂ = true ↔
      ∀ i (h₁ : i < l₁.length) (h₂ : i < l₂.length),
        is_same_type (l₁.get ⟨i, h₁⟩) (l₂.get ⟨i, h₂⟩) = true)
  | [], [], _ => by simp [sameZipAll]
  | [], _ :: _, h => by simp at h
  | _ :: _, [], h => by simp at h
  | t₁ :: r₁, t₂ :: r₂, h => by
      have ih := sameZipAll_iff r₁ r₂ (by simpa using h)
      constructor
      · intro hall i h₁ h₂
        simp only [sameZipAll, Bool.and_eq_true] at hall
        match i with
        | 0 => exact hall.1
        | i + 1 =>
            exact ih.mp hall.2 i (by simpa using h₁) (by simpa using h₂)
      · intro hpt
        simp only [sameZipAll, Bool.and_eq_true]
        refine ⟨hpt 0 (by simp) (by simp), ih.mpr ?_⟩
        intro i h₁ h₂
        exact hpt (i + 1) (by simpa using h₁) (by simpa using h₂)

theorem rtuple_same_iff (ts₁ ts₂ : List RType) :
    is_same_type (.rtuple ts₁) (.rtuple ts₂) = true ↔
      ts₁.length = ts₂.length ∧
        ∀ i (h₁ : i < ts₁.length) (h₂ : i < ts₂.length),
          is_same_type (ts₁.get ⟨i, h₁⟩) (ts₂.get ⟨i, h₂⟩) = true := by
  simp only [is_same_type, Bool.and_eq_true, beq_iff_eq]
  constructor
  · rintro ⟨hlen, hall⟩
    exact ⟨hlen.symm, (sameZipAll_iff ts₁ ts₂ hlen.symm).mp hall⟩
  · rintro ⟨hlen, hall⟩
    exact ⟨hlen.symm, (sameZipAll_iff ts₁ ts₂ hlen).mpr hall⟩

/-- C5: for fixed-length tuple types, `is_same_type` holds iff the arities
are equal and every pairwise corresponding element type is the same
(order-sensitive); replacing any single element of the right tuple by a
non-same type, or comparing against a tuple of different arity, yields
false. -/
theorem C5_rtuple_same_characterization :
    ∀ ts₁ ts₂ : List RType,
      (is_same_type (.rtuple ts₁) (.rtuple ts₂) = true ↔
        ts₁.length = ts₂.length ∧
          ∀ i (h₁ : i < ts₁.length) (h₂ : i < ts₂.length),
            is_same_type (ts₁.get ⟨i, h₁⟩) (ts₂.get ⟨i, h₂⟩) = true)
      ∧ (∀ i u (h₁ : i < ts₁.length),
          is_same_type (.rtuple ts₁) (.rtuple ts₂) = true →
          is_same_type (ts₁.get ⟨i, h₁⟩) u = false →
          is_same_type (.rtuple ts₁) (.rtuple (ts₂.set i u)) = false)
      ∧ (∀ ts₃ : List RType, ts₁.length ≠ ts₃.length →
          is_same_type (.rtuple ts₁) (.rtuple ts₃) = false) := by
  intro ts₁ ts₂
  refine ⟨rtuple_same_iff ts₁ ts₂, ?_, ?_⟩
  · intro i u h₁ hsame hne
    have hch := (rtuple_same_iff ts₁ ts₂).mp hsame
    by_contra hfalse
    have htrue : is_same_type (.rtuple ts₁) (.rtuple (ts₂.set i u)) = true := by
      cases hres : is_same_type (.rtuple ts₁) (.rtuple (ts₂.set i u))
      · exact absurd hres hfalse
      · rfl
    have hch' := (rtuple_same_iff ts₁ (ts₂.set i u)).mp htrue
    have hi₂ : i < (ts₂.set i u).length := by
      rw [List.length_set]; omega
    have := hch'.2 i h₁ hi₂
    rw [show (ts₂.set i u).get ⟨i, hi₂⟩ = u from by
      rw [List.get_eq_getElem, List.getElem_set_self]] at this
    · rw [hne] at this; exact Bool.false_ne_true this
  · intro ts₃ hlen
    cases hres : is_same_type (.rtuple ts₁) (.rtuple ts₃)
    · rfl
    · exact absurd ((rtuple_same_iff ts₁ ts₃).mp hres).1 hlen

/-- Witness for C5 at concrete inputs: `tuple[int, bool]` is the same type as
itself, and replacing its first element with `str`, or dropping to arity 1,
flips the result to false. -/
theorem C5_witness :
    is_same_type (.rtuple [int_rprimitive, bool_rprimitive])
        (.rtuple [str_rprimitive, bool_rprimitive]) = false
    ∧ is_same_type (.rtuple [int_rprimitive, bool_rprimitive])
        (.rtuple [int_rprimitive]) = false := by
  constructor
  · have h := (C5_rtuple_same_characterization
        [int_rprimitive, bool_rprimitive] [int_rprimitive, bool_rprimitive]).2.1
        0 str_rprimitive (by decide)
        (by simp [is_same_type, sameZipAll, int_rprimitive, bool_rprimitive])
        (by simp [is_same_type, int_rprimitive, str_rprimitive])
    simpa using h
  · exact (C5_rtuple_same_characterization
        [int_rprimitive, bool_rprimitive] []).2.2 [int_rprimitive] (by decide)

/-!
## Function signatures (mypyc/sametype.py)
-/

/-- A formal argument: a name together with its runtime type (ops.py,
class `RuntimeArg`). -/
structure RuntimeArg where
  name : String
  type : RType

/-- Modelled from the spec: the `FuncSignature` record that
`is_same_signature`/`is_same_method_signature` consume is imported by
sametype.py from ops.py but absent from the available sources; per §4.3 of
the spec (and the two functions' field accesses) it carries the ordered
formal arguments (`args`, each a name plus an RType) and the return type
(`ret_type`). -/
structure FuncSignature where
  args : List RuntimeArg
  ret_type : RType

/-- sametype.py, `is_same_signature`: equal arity, same return type, and for
every zipped argument pair both the types are the same and the names are
equal. -/
def is_same_signature (a b : FuncSignature) : Bool :=
  (a.args.length == b.args.length)
    && is_same_type a.ret_type b.ret_type
    && (a.args.zip b.args).all
        (fun p => is_same_type p.1.type p.2.type && (p.1.name == p.2.name))

/-- sametype.py, `is_same_method_signature`: identical to
`is_same_signature` except that the zipped pairs range over `args[1:]` of
both signatures (the receiver position is skipped entirely). -/
def is_same_method_signature (a b : FuncSignature) : Bool :=
  (a.args.length == b.args.length)
    && is_same_type a.ret_type b.ret_type
    && ((a.args.drop 1).zip (b.args.drop 1)).all
        (fun p => is_same_type p.1.type p.2.type && (p.1.name == p.2.name))

/-- C2 counterexample: the claim says `is_same_method_signature` does not
require argument names to match, but the source compares names at every
position after the receiver.  Two method signatures with equal arity,
pairwise-same argument types (also after the receiver) and the same return
type, differing only in the *name* of the post-receiver argument, are
reported as different. -/
theorem C2_counterexample :
    (let a : FuncSignature :=
        ⟨[⟨"self", object_rprimitive⟩, ⟨"x", int_rprimitive⟩], int_rprimitive⟩
     let b : FuncSignature :=
        ⟨[⟨"self", object_rprimitive⟩, ⟨"y", int_rprimitive⟩], int_rprimitive⟩
     a.args.length = b.args.length
       ∧ is_same_type a.ret_type b.ret_type = true
       ∧ (∀ p ∈ (a.args.drop 1).zip (b.args.drop 1),
            is_same_type p.1.type p.2.type = true)
       ∧ is_same_method_signature a b = false) := by
  refine ⟨rfl, ?_, ?_, ?_⟩
  · simp [is_same_type, int_rprimitive]
  · intro p hp
    simp only [List.drop, List.zip, List.zipWith, List.mem_singleton] at hp
    subst hp
    simp [is_same_type, int_rprimitive]
  · simp [is_same_method_signature, is_same_signature, is_same_type,
      int_rprimitive, object_rprimitive]

/-- C2 amended: `is_same_signature` requires, in addition to equal arity,
same return type and pairwise-same argument types, that every pair of
corresponding argument names match; `is_same_method_signature` compares
only the positions after the receiver (the first argument's name *and*
type are both ignored) but still requires names to match there — it equals
the plain comparison applied to the signatures with their first argument
dropped, together with the full-arity check. -/
theorem C2_signature_name_comparison :
    ∀ a b : FuncSignature,
      (is_same_signature a b = true ↔
        a.args.length = b.args.length
          ∧ is_same_type a.ret_type b.ret_type = true
          ∧ ∀ p ∈ a.args.zip b.args,
              is_same_type p.1.type p.2.type = true ∧ p.1.name = p.2.name)
      ∧ is_same_method_signature a b =
          ((a.args.length == b.args.length)
            && is_same_signature ⟨a.args.drop 1, a.ret_type⟩
                ⟨b.args.drop 1, b.ret_type⟩) := by
  intro a b
  constructor
  · simp [is_same_signature, List.all_eq_true, and_assoc]
  · simp only [is_same_method_signature, is_same_signature]
    cases hlen : a.args.length == b.args.length
    · simp
    · have hlen' : a.args.length = b.args.length := by
        simpa using hlen
      simp [hlen']

/-- Witness for C2's amended theorem at a concrete input (the two method
signatures of the counterexample). -/
theorem C2_witness :
    is_same_method_signature
        ⟨[⟨"self", object_rprimitive⟩, ⟨"x", int_rprimitive⟩], int_rprimitive⟩
        ⟨[⟨"self", object_rprimitive⟩, ⟨"y", int_rprimitive⟩], int_rprimitive⟩
      = ((2 == 2)
          && is_same_signature ⟨[⟨"x", int_rprimitive⟩], int_rprimitive⟩
              ⟨[⟨"y", int_rprimitive⟩], int_rprimitive⟩) :=
  (C2_signature_name_comparison
      ⟨[⟨"self", object_rprimitive⟩, ⟨"x", int_rprimitive⟩], int_rprimitive⟩
      ⟨[⟨"self", object_rprimitive⟩, ⟨"y", int_rprimitive⟩], int_rprimitive⟩).2

/-!
## Registers and the Environment (mypyc/ops.py)

A `Register` is either an integer `CRegister` or an `Op` acting as its own
handle; only the `CRegister` side is exercised by the operations modelled
here, so registers are embedded as integers (`INVALID_REGISTER = -99999`).
Python dicts are embedded as insertion-ordered association lists with
unique keys: updating an existing key replaces its value in place, a new
key is appended at the end.
-/

abbrev Register := Int

def INVALID_REGISTER : Register := -99999

abbrev Label := Int

def INVALID_LABEL : Label := -88888

def dictInsert {K V : Type _} [DecidableEq K] : List (K × V) → K → V → List (K × V)
  | [], k, v => [(k, v)]
  | (k', v') :: rest, k, v =>
      if k' = k then (k, v) :: rest else (k', v') :: dictInsert rest k v

def dictLookup {K V : Type _} [DecidableEq K] : List (K × V) → K → Option V
  | [], _ => none
  | (k', v') :: rest, k => if k' = k then some v' else dictLookup rest k

theorem dictLookup_dictInsert_self {K V : Type _} [DecidableEq K]
    (l : List (K × V)) (k : K) (v : V) :
    dictLookup (dictInsert l k v) k = some v := by
  induction l with
  | nil => simp [dictInsert, dictLookup]
  | cons hd tl ih =>
      by_cases h : hd.1 = k
      · simp [dictInsert, dictLookup, h]
      · simp [dictInsert, dictLookup, h, ih]

/-- A surface-level variable (mypy's `Var` node).  The symbol table of the
source is keyed by the `Var` *object's identity*; `id` models that
identity, `name` models `var.name()`. -/
structure Var where
  id : Nat
  name : String

/-- ops.py `Environment`: register bookkeeping for one function. -/
structure Environment where
  indexes : List (Register × Nat)
  names : List (Register × String)
  types : List (Register × RType)
  symtable : List (Nat × Register)
  temp_index : Nat

def Environment.init : Environment := ⟨[], [], [], [], 0⟩

/-- `Environment.add`: `indexes[reg] = len(names)` (computed before `names`
is extended), then `names[reg] = name` and `types[reg] = typ`. -/
def Environment.add (env : Environment) (reg : Register) (name : String)
    (typ : RType) : Environment :=
  { env with
    indexes := dictInsert env.indexes reg env.names.length,
    names := dictInsert env.names reg name,
    types := dictInsert env.types reg typ }

/-- `Environment.add_local`: allocates `reg = CRegister(len(names))`, binds
the variable in the symbol table, records name/type and returns the
register.  The single assertion of the source (`isinstance(var, Var)`) is
discharged by typing, so the result is always `some`; assertion failure
would be `none`. -/
def Environment.add_local (env : Environment) (var : Var) (typ : RType) :
    Option (Register × Environment) :=
  let reg : Register := (env.names.length : Int)
  let env' := { env with symtable := dictInsert env.symtable var.id reg }
  some (reg, env'.add reg var.name typ)

/-- `Environment.lookup`: `self.symtable[var]`; a missing binding raises
`KeyError`, modelled as `none`. -/
def Environment.lookup (env : Environment) (var : Var) : Option Register :=
  dictLookup env.symtable var.id

/-- C9 counterexample: the claim says a second `add_local` call for an
already-bound variable fails with an assertion; in the source the only
assertion in `add_local` is `isinstance(var, Var)`, so the second call
succeeds — here it returns the fresh register 1, not a failure. -/
theorem C9_counterexample :
    ((Environment.init.add_local ⟨0, "x"⟩ int_rprimitive).bind
        (fun p => p.2.add_local ⟨0, "x"⟩ int_rprimitive)).isSome = true
    ∧ ((Environment.init.add_local ⟨0, "x"⟩ int_rprimitive).bind
        (fun p => p.2.add_local ⟨0, "x"⟩ int_rprimitive)).map Prod.fst
      = some 1 := by
  exact ⟨rfl, rfl⟩

/-- C9 amended: `add_local` never fails — whether or not the variable is
already bound, it returns a fresh register handle numbered by the current
count of bound names and rebinds the variable in the symbol table to that
register (the source's only assertion checks that the argument is a `Var`).
-/
theorem C9_add_local_always_succeeds :
    ∀ (env : Environment) (v : Var) (t : RType),
      ∃ env' : Environment,
        env.add_local v t = some ((env.names.length : Int), env')
          ∧ env'.lookup v = some (env.names.length : Int) := by
  intro env v t
  refine ⟨_, rfl, ?_⟩
  simp only [Environment.lookup, Environment.add, Environment.add_local]
  exact dictLookup_dictInsert_self env.symtable v.id _

/-!
## Branch (mypyc/ops.py)

The source's target-label fields are named `true` and `false`; those are
keywords in Lean, so they are embedded as `true_label` and `false_label`.
-/

structure Branch where
  left : Register
  right : Register
  true_label : Label
  false_label : Label
  op : Int
  line : Int
  negated : Bool
  traceback_entry : Option (String × Int)

/-- `Branch.__init__`: `negated` starts `False` and `traceback_entry`
starts `None`. -/
def Branch.make (left right : Register) (true_label false_label : Label)
    (op : Int) (line : Int) : Branch :=
  ⟨left, right, true_label, false_label, op, line, false, none⟩

/-- `Branch.invert`: swap the two target labels and toggle `negated`. -/
def Branch.invert (b : Branch) : Branch :=
  { b with
    true_label := b.false_label
    false_label := b.true_label
    negated := !b.negated }

/-- C10: `invert` swaps exactly the true and false labels and toggles the
negated flag, leaving `left`, `right`, `op`, `line` and `traceback_entry`
unchanged, and applying it twice restores the original Branch (`invert` is
an involution). -/
theorem C10_branch_invert_involution :
    ∀ b : Branch,
      b.invert.invert = b
      ∧ b.invert.true_label = b.false_label
      ∧ b.invert.false_label = b.true_label
      ∧ b.invert.negated = !b.negated
      ∧ b.invert.left = b.left
      ∧ b.invert.right = b.right
      ∧ b.invert.op = b.op
      ∧ b.invert.line = b.line
      ∧ b.invert.traceback_entry = b.traceback_entry := by
  intro b
  cases b
  simp [Branch.invert]

/-!
## FuncIR, ClassIR, ModuleIR (mypyc/ops.py)

Of `FuncIR` only the `name` field is consulted by the operations the
claims are about (method tables and slot lookup); the source also carries
arguments, return type, blocks and an environment.
-/

structure FuncIR where
  name : String

structure ClassIR where
  name : String
  attributes : List (String × RType)
  methods : List FuncIR

/-- The search loop of `RInstance.getter_index`: `for i, (attr, _) in
enumerate(attributes): if attr == name: return i * 2`, with `assert False`
(modelled `none`) when no attribute matches; `i` is the running enumerate
index. -/
def getter_index_from (attributes : List (String × RType)) (name : String)
    (i : Nat) : Option Nat :=
  match attributes with
  | [] => none
  | (attr, _) :: rest =>
      if attr == name then some (i * 2) else getter_index_from rest name (i + 1)

/-- `RInstance.getter_index`, which delegates to the instance's `class_ir`. -/
def ClassIR.getter_index (c : ClassIR) (name : String) : Option Nat :=
  getter_index_from c.attributes name 0

/-- `RInstance.setter_index`: `getter_index(name) + 1`. -/
def ClassIR.setter_index (c : ClassIR) (name : String) : Option Nat :=
  (c.getter_index name).map (· + 1)

/-- The search loop of `RInstance.method_index`: `base = len(attributes) * 2`,
then the first method whose name matches yields `base + i`. -/
def method_index_from (methods : List FuncIR) (name : String) (base i : Nat) :
    Option Nat :=
  match methods with
  | [] => none
  | fn :: rest =>
      if fn.name == name then some (base + i)
      else method_index_from rest name base (i + 1)

/-- `RInstance.method_index`, which delegates to the instance's `class_ir`. -/
def ClassIR.method_index (c : ClassIR) (name : String) : Option Nat :=
  method_index_from c.methods name (c.attributes.length * 2) 0

theorem getter_index_from_spec :
    ∀ (attrs : List (String × RType)) (i k : Nat) (h : k < attrs.length),
      (attrs.map Prod.fst).Nodup →
      getter_index_from attrs ((attrs.get ⟨k, h⟩).1) i = some ((i + k) * 2)
  | [], _, k, h, _ => by simp at h
  | (attr, t) :: rest, i, 0, h, hnd => by
      simp [getter_index_from]
  | (attr, t) :: rest, i, k + 1, h, hnd => by
      have hmem : ((attr, t) :: rest : List (String × RType)).get ⟨k + 1, h⟩
          = rest.get ⟨k, by simpa using h⟩ := rfl
      rw [hmem]
      have hnd' : (rest.map Prod.fst).Nodup := by
        simpa using hnd.of_cons
      have hattr : attr ∉ rest.map Prod.fst := by
        simp only [List.map_cons, List.nodup_cons] at hnd
        exact hnd.1
      have hne : attr ≠ (rest.get ⟨k, by simpa using h⟩).1 := by
        intro heq
        exact hattr (heq ▸ List.mem_map_of_mem Prod.fst (rest.get_mem _ _))
      rw [getter_index_from, if_neg (by simpa using hne)]
      have := getter_index_from_spec rest (i + 1) k (by simpa using h) hnd'
      rw [this]
      congr 1
      omega

theorem method_index_from_spec :
    ∀ (methods : List FuncIR) (base i k : Nat) (h : k < methods.length),
      (methods.map FuncIR.name).Nodup →
      method_index_from methods ((methods.get ⟨k, h⟩).name) base i
        = some (base + (i + k))
  | [], _, _, k, h, _ => by simp at h
  | fn :: rest, base, i, 0, h, hnd => by
      simp [method_index_from]
  | fn :: rest, base, i, k + 1, h, hnd => by
      have hmem : ((fn :: rest : List FuncIR)).get ⟨k + 1, h⟩
          = rest.get ⟨k, by simpa using h⟩ := rfl
      rw [hmem]
      have hnd' : (rest.map FuncIR.name).Nodup := by
        simpa using hnd.of_cons
      have hname : fn.name ∉ rest.map FuncIR.name := by
        simp only [List.map_cons, List.nodup_cons] at hnd
        exact hnd.1
      have hne : fn.name ≠ (rest.get ⟨k, by simpa using h⟩).name := by
        intro heq
        exact hname (heq ▸ List.mem_map_of_mem FuncIR.name (rest.get_mem _ _))
      rw [method_index_from, if_neg (by simpa using hne)]
      have := method_index_from_spec rest base (i + 1) k (by simpa using h) hnd'
      rw [this]
      congr 1
      omega

/-- C7: in a class whose attribute names and method names are distinct, the
i-th declared attribute's getter slot index is `2*i`, its setter slot index
is `2*i + 1`, and the j-th declared method's slot index is
`2 * (number of attributes) + j`. -/
theorem C7_class_slot_indices :
    ∀ c : ClassIR,
      (c.attributes.map Prod.fst).Nodup →
      (c.methods.map FuncIR.name).Nodup →
      (∀ i (h : i < c.attributes.length),
          c.getter_index ((c.attributes.get ⟨i, h⟩).1) = some (2 * i)
          ∧ c.setter_index ((c.attributes.get ⟨i, h⟩).1) = some (2 * i + 1))
      ∧ (∀ j (h : j < c.methods.length),
          c.method_index ((c.methods.get ⟨j, h⟩).name)
            = some (2 * c.attributes.length + j)) := by
  intro c hattrs hmethods
  constructor
  · intro i h
    have hg := getter_index_from_spec c.attributes 0 i h hattrs
    have hg' : c.getter_index ((c.attributes.get ⟨i, h⟩).1) = some (2 * i) := by
      rw [ClassIR.getter_index, hg]
      congr 1
      omega
    refine ⟨hg', ?_⟩
    rw [ClassIR.setter_index, hg']
    rfl
  · intro j h
    have hm := method_index_from_spec c.methods (c.attributes.length * 2) 0 j h
      hmethods
    rw [ClassIR.method_index, hm]
    congr 1
    omega

/-- The spec's scenario class: attributes `[a, b]`, methods `[f, g]`. -/
def exampleClass : ClassIR :=
  ⟨"C", [("a", int_rprimitive), ("b", str_rprimitive)], [⟨"f"⟩, ⟨"g"⟩]⟩

/-- Witness for C7 on the spec's scenario class: getter/setter indices 0/1
for `a`, 2/3 for `b`, method indices 4 for `f` and 5 for `g`. -/
theorem C7_witness :
    exampleClass.getter_index "a" = some 0
    ∧ exampleClass.setter_index "a" = some 1
    ∧ exampleClass.getter_index "b" = some 2
    ∧ exampleClass.setter_index "b" = some 3
    ∧ exampleClass.method_index "f" = some 4
    ∧ exampleClass.method_index "g" = some 5 := by
  have h := C7_class_slot_indices exampleClass (by decide) (by decide)
  exact ⟨(h.1 0 (by decide)).1, (h.1 0 (by decide)).2,
    (h.1 1 (by decide)).1, (h.1 1 (by decide)).2,
    h.2 0 (by decide), h.2 1 (by decide)⟩

/-- ops.py `ModuleIR`.  The literal table field is named `unicode_literals`
in the source constructor. -/
structure ModuleIR where
  imports : List String
  unicode_literals : List (String × String)
  functions : List FuncIR
  classes : List ClassIR

/-- `ModuleIR.__init__`: copies the import list, then inserts `'builtins'`
at position 0 iff it is not already present anywhere in the list. -/
def ModuleIR.make (imports : List String) (unicode_literals : List (String × String))
    (functions : List FuncIR) (classes : List ClassIR) : ModuleIR :=
  { imports := if "builtins" ∈ imports then imports else "builtins" :: imports
    unicode_literals := unicode_literals
    functions := functions
    classes := classes }

/-- C3 counterexample: the claim says the constructed imports list always
has `'builtins'` first, but the source only inserts it when absent — for
the input `['os', 'builtins']` the first element stays `'os'`. -/
theorem C3_counterexample :
    (ModuleIR.make ["os", "builtins"] [] [] []).imports.head? = some "os"
    ∧ (ModuleIR.make ["os", "builtins"] [] [] []).imports.head?
        ≠ some "builtins" := by
  exact ⟨rfl, by decide⟩

/-- C3 amended: the constructed imports list always *contains* the root
builtins module; when `'builtins'` is absent from the given list it is
inserted at position 0 (so it is first and the other imports keep their
relative order), and when it is already present the list is kept exactly as
given (so `'builtins'` stays at its original position, not necessarily
first). -/
theorem C3_builtins_import :
    ∀ (imports : List String) (lits : List (String × String))
      (fns : List FuncIR) (cls : List ClassIR),
      "builtins" ∈ (ModuleIR.make imports lits fns cls).imports
      ∧ ("builtins" ∉ imports →
          (ModuleIR.make imports lits fns cls).imports = "builtins" :: imports)
      ∧ ("builtins" ∈ imports →
          (ModuleIR.make imports lits fns cls).imports = imports) := by
  intro imports lits fns cls
  by_cases h : "builtins" ∈ imports <;> simp [ModuleIR.make, h]

/-- Witness for C3's amended theorem at a concrete input. -/
theorem C3_witness :
    "builtins" ∈ (ModuleIR.make ["os"] [] [] []).imports
    ∧ (ModuleIR.make ["os"] [] [] []).imports = "builtins" :: ["os"] := by
  have h := C3_builtins_import ["os"] [] [] []
  exact ⟨h.1, h.2.1 (by decide)⟩

/-!
## Module initialization declaration (mypyc/emitmodule.py)

`ModuleGenerator.generate_module_def` chooses the declaration of the module
init function from the number of modules being compiled together.
-/

def module_init_declaration (num_modules : Nat) (module_name : String) : String :=
  if num_modules == 1 then "PyMODINIT_FUNC PyInit_" ++ module_name ++ "(void)"
  else "PyObject *x_PyInit_" ++ module_name ++ "(void)"

theorem shim_decl_ne_canonical (m m' : String) :
    "PyObject *x_PyInit_" ++ m ++ "(void)"
      ≠ "PyMODINIT_FUNC PyInit_" ++ m' ++ "(void)" := by
  intro h
  have h2 := congrArg String.data h
  rw [String.data_append, String.data_append, String.data_append,
    String.data_append] at h2
  have e₁ : (("PyObject *x_PyInit_".data ++ m.data) ++ "(void)".data)[2]?
      = some 'O' := by
    rw [List.getElem?_append_left (by
      rw [List.length_append]
      have : ("PyObject *x_PyInit_".data).length = 19 := rfl
      omega)]
    rw [List.getElem?_append_left (by decide : 2 < ("PyObject *x_PyInit_".data).length)]
    decide
  have e₂ : (("PyMODINIT_FUNC PyInit_".data ++ m'.data) ++ "(void)".data)[2]?
      = some 'M' := by
    rw [List.getElem?_append_left (by
      rw [List.length_append]
      have : ("PyMODINIT_FUNC PyInit_".data).length = 22 := rfl
      omega)]
    rw [List.getElem?_append_left (by decide : 2 < ("PyMODINIT_FUNC PyInit_".data).length)]
    decide
  have h3 := congrArg (fun l => l[2]?) h2
  simp only [e₁, e₂] at h3
  exact absurd h3 (by decide)

/-- C8: when exactly one module is compiled its init routine is declared
with the canonical entry-point name (`PyMODINIT_FUNC PyInit_<module>`);
when two or more modules are compiled together every module's initializer
is declared with the internally-prefixed name
(`PyObject *x_PyInit_<module>`) and no module's declaration is the
canonical entry-point declaration of any module name. -/
theorem C8_module_init_entry_point :
    ∀ (module_names : List String) (m : String), m ∈ module_names →
      (module_names.length = 1 →
        module_init_declaration module_names.length m
          = "PyMODINIT_FUNC PyInit_" ++ m ++ "(void)")
      ∧ (2 ≤ module_names.length →
          module_init_declaration module_names.length m
            = "PyObject *x_PyInit_" ++ m ++ "(void)"
          ∧ ∀ m' : String,
              module_init_declaration module_names.length m
                ≠ "PyMODINIT_FUNC PyInit_" ++ m' ++ "(void)") := by
  intro names m _
  constructor
  · intro h1
    simp [module_init_declaration, h1]
  · intro h2
    have hne : (names.length == 1) = false := by
      simp only [beq_eq_false_iff_ne, ne_eq]
      omega
    refine ⟨by simp [module_init_declaration, hne], fun m' => ?_⟩
    simp only [module_init_declaration, hne, Bool.false_eq_true, if_false]
    exact shim_decl_ne_canonical m m'

/-- Witness for C8 at concrete inputs: a one-module build of `a` and a
two-module build of `a` and `b`. -/
theorem C8_witness :
    module_init_declaration 1 "a" = "PyMODINIT_FUNC PyInit_" ++ "a" ++ "(void)"
    ∧ module_init_declaration 2 "a" = "PyObject *x_PyInit_" ++ "a" ++ "(void)"
    ∧ module_init_declaration 2 "a"
        ≠ "PyMODINIT_FUNC PyInit_" ++ "b" ++ "(void)" := by
  have h2 := C8_module_init_entry_point ["a", "b"] "a" (by simp)
  have h1 := C8_module_init_entry_point ["a"] "a" (by simp)
  exact ⟨h1.1 rfl, (h2.2 (by decide)).1, (h2.2 (by decide)).2 "b"⟩

/-!
## Undefined/error sentinels and LoadErrorValue emission
(mypyc/ops.py, mypyc/emitfunc.py)
-/

mutual

/-- Modelled from the spec: `RTuple.unique_id` in the source truncates the
decimal string of a Python object hash, which has no portable meaning; per
the spec's §9 design note (a short deterministic identifier computed from
the tuple's structure) it is modelled as a canonical structural encoding.
No claim below depends on its exact value. -/
def typeUid : RType → String
  | .rprimitive n _ => n
  | .rinstance n => "I" ++ n
  | .roptional v => "O" ++ typeUid v
  | .rtuple ts => "T" ++ typeUidList ts
termination_by t => sizeOf t

def typeUidList : List RType → String
  | [] => ""
  | t :: r => typeUid t ++ "_" ++ typeUidList r
termination_by l => sizeOf l

end

/-- `RTuple.struct_name`: `'tuple_def_' + unique_id`. -/
def tuple_struct_name (ts : List RType) : String :=
  "tuple_def_" ++ typeUidList ts

/-- The `ctype` attribute, set at construction: primitives carry the ctype
they were constructed with, instances and optionals use `PyObject *`, and a
tuple uses `struct <struct_name>`. -/
def RType.ctype : RType → String
  | .rprimitive _ c => c
  | .rinstance _ => "PyObject *"
  | .roptional _ => "PyObject *"
  | .rtuple ts => "struct " ++ tuple_struct_name ts

/-- `c_undefined_value`: a primitive returns the sentinel derived from its
ctype at construction; `RInstance` and `ROptional` return `NULL`; `RTuple`
hits `assert False` — a tuple's undefined value cannot be represented as a
single C expression — modelled as `none`. -/
def c_undefined_value : RType → Option String
  | .rprimitive _ c => c_undefined_of_ctype c
  | .rinstance _ => some "NULL"
  | .roptional _ => some "NULL"
  | .rtuple _ => none

/-- `RType.c_error_value` simply returns `c_undefined_value`. -/
def c_error_value (t : RType) : Option String :=
  c_undefined_value t

/-- Left-to-right evaluation of `f` over a list, aborting at the first
failure — the behaviour of the source's list comprehension over fallible
per-element calls. -/
def mapOptionAll {α β : Type _} (f : α → Option β) : List α → Option (List β)
  | [] => some []
  | a :: as =>
      match f a with
      | none => none
      | some b => (mapOptionAll f as).map (fun bs => b :: bs)

/-- `FunctionEmitterVisitor.visit_load_error_value` (emitfunc.py): for a
tuple-typed op it computes each element's single-expression sentinel (an
element that has none — a nested tuple — aborts the whole emission), then
declares a temporary aggregate initialized with those sentinels and assigns
it to the destination; for any other type it assigns the type's error value
directly.  `dest` is the rendered destination register, `tmp` the fresh
temporary name. -/
def visit_load_error_value (rtype : RType) (dest tmp : String) :
    Option (List String) :=
  match rtype with
  | .rtuple types =>
      match mapOptionAll c_undefined_value types with
      | none => none
      | some values =>
          some [RType.ctype (.rtuple types) ++ " " ++ tmp ++ " = \x7b "
              ++ String.intercalate ", " values ++ " \x7d;",
            dest ++ " = " ++ tmp ++ ";"]
  | t =>
      match c_error_value t with
      | none => none
      | some v => some [dest ++ " = " ++ v ++ ";"]

/-- C6 counterexample: the claim says emitting a LoadErrorValue succeeds
for *every* fixed-length tuple type, but a tuple with a tuple element makes
the per-element sentinel request hit `RTuple.c_undefined_value`'s
assertion, so the emission fails. -/
theorem C6_counterexample :
    visit_load_error_value (.rtuple [.rtuple [int_rprimitive]]) "cpy_r_r0" "__tmp1"
      = none := rfl

/-- C6 amended: requesting a tuple type's own single-expression sentinel
(`c_undefined_value`) always fails, while emitting a LoadErrorValue of a
tuple type succeeds exactly when every element's sentinel is expressible as
a single expression (in particular when no element is itself a tuple), in
which case it materializes a temporary aggregate whose fields are the
element sentinels. -/
theorem C6_tuple_error_value :
    ∀ (ts : List RType) (dest tmp : String),
      c_undefined_value (.rtuple ts) = none
      ∧ (∀ values, mapOptionAll c_undefined_value ts = some values →
          visit_load_error_value (.rtuple ts) dest tmp
            = some [RType.ctype (.rtuple ts) ++ " " ++ tmp ++ " = \x7b "
                ++ String.intercalate ", " values ++ " \x7d;",
              dest ++ " = " ++ tmp ++ ";"])
      ∧ (mapOptionAll c_undefined_value ts = none →
          visit_load_error_value (.rtuple ts) dest tmp = none) := by
  intro ts dest tmp
  refine ⟨rfl, ?_, ?_⟩
  · intro values hv
    simp [visit_load_error_value, hv]
  · intro hv
    simp [visit_load_error_value, hv]

/-- Witness for C6 at a concrete input: the two-element tuple of `int` and
`bool`, whose element sentinels are `CPY_INT_TAG` and `2`. -/
theorem C6_witness :
    visit_load_error_value (.rtuple [int_rprimitive, bool_rprimitive])
        "cpy_r_r0" "__tmp1"
      = some [RType.ctype (.rtuple [int_rprimitive, bool_rprimitive])
            ++ " " ++ "__tmp1" ++ " = \x7b "
            ++ String.intercalate ", " ["CPY_INT_TAG", "2"] ++ " \x7d;",
          "cpy_r_r0" ++ " = " ++ "__tmp1" ++ ";"] :=
  (C6_tuple_error_value [int_rprimitive, bool_rprimitive]
    "cpy_r_r0" "__tmp1").2.1 ["CPY_INT_TAG", "2"] rfl

/-!
## Topological sorting of declarations (mypyc/emitmodule.py)

`ModuleGenerator.toposort_declarations` wraps each entry of the emitter
context's insertion-ordered declaration dict in a `MarkedDeclaration`
(whose mark always starts `False`), then runs a depth-first
emit-on-first-visit pass over every entry.
-/

/-- Modelled from the spec: emit.py's `HeaderDeclaration` (absent from the
available sources) as used by emitmodule.py — a collection of names of
declarations that must be emitted first, plus the body lines.  The source
holds `dependencies` as a Python set; it is embedded as a list of names
(every claim below is insensitive to its iteration order). -/
structure HeaderDeclaration where
  dependencies : List String
  body : List String
deriving DecidableEq

/-- The emitter context's declaration dict: insertion-ordered
(name, declaration) pairs with distinct names. -/
abbrev Declarations := List (String × HeaderDeclaration)

/-- Python dict indexing `marked_declarations[name]`; a missing key raises
`KeyError`, modelled as `none`. -/
def lookupDecl : Declarations → String → Option HeaderDeclaration
  | [], _ => none
  | (k, v) :: rest, name => if k == name then some v else lookupDecl rest name

/-- The mutable state of the sort: the set of names whose
`MarkedDeclaration.mark` flag is set, and the result list built so far
(each appended declaration is paired with its dict key). -/
structure TopoState where
  marked : List String
  result : List (String × HeaderDeclaration)

/-- Sequential state-threading visit of a list of names — the source's
`for child in decl.declaration.dependencies` loop, and also the top-level
loop over all declarations. -/
def visitEach (f : String → TopoState → Option TopoState) :
    List String → TopoState → Option TopoState
  | [], s => some s
  | n :: ns, s =>
      match f n s with
      | none => none
      | some s' => visitEach f ns s'

/-- `_toposort_visit`: index the dict (KeyError → `none`), return the state
unchanged if the entry is already marked, otherwise visit every dependency,
then append the declaration to the result and set its mark.  The source's
recursion is depth-bounded here by `fuel`; `toposort_declarations` supplies
`length + 1`, which C1's theorem proves sufficient on every acyclic graph.
Fuel exhaustion — where the source would recurse forever on a cycle — is
`none`. -/
def toposortVisit (g : Declarations) : Nat → String → TopoState → Option TopoState
  | 0, _, _ => none
  | fuel + 1, name, s =>
      match lookupDecl g name with
      | none => none
      | some decl =>
          if name ∈ s.marked then some s
          else
            match visitEach (toposortVisit g fuel) decl.dependencies s with
            | none => none
            | some s' => some ⟨name :: s'.marked, s'.result ++ [(name, decl)]⟩

/-- `ModuleGenerator.toposort_declarations`: starting from no marks and an
empty result, visit every declaration in dict order and return the
accumulated result list. -/
def toposort_declarations (g : Declarations) :
    Option (List (String × HeaderDeclaration)) :=
  match visitEach (toposortVisit g (g.length + 1)) (g.map Prod.fst) ⟨[], []⟩ with
  | none => none
  | some s => some s.result

example :
    (toposort_declarations
        [("X", ⟨["Y", "Z"], []⟩), ("Y", ⟨["W"], []⟩),
         ("Z", ⟨["W"], []⟩), ("W", ⟨[], []⟩)]).map
      (fun r => r.map Prod.fst)
      = some ["W", "Y", "Z", "X"] := by decide

theorem lookupDecl_mem : ∀ (g : Declarations) (n : String) (d : HeaderDeclaration),
    lookupDecl g n = some d → (n, d) ∈ g
  | [], n, d => by simp [lookupDecl]
  | (k, v) :: rest, n, d => by
      simp only [lookupDecl]
      by_cases h : (k == n) = true
      · have hk : k = n := by simpa using h
        subst hk
        simp only [beq_self_eq_true, if_true, Option.some.injEq]
        intro hv
        subst hv
        exact List.mem_cons_self _ _
      · rw [if_neg h]
        intro hrec
        exact List.mem_cons_of_mem _ (lookupDecl_mem rest n d hrec)

theorem mem_lookupDecl : ∀ (g : Declarations), (g.map Prod.fst).Nodup →
    ∀ (n : String) (d : HeaderDeclaration), (n, d) ∈ g → lookupDecl g n = some d
  | [], _, n, d => by simp
  | (k, v) :: rest, hnd, n, d => by
      intro hmem
      rcases List.mem_cons.mp hmem with he | ht
      · rw [Prod.mk.injEq] at he
        obtain ⟨h₁, h₂⟩ := he
        subst h₁; subst h₂
        simp [lookupDecl]
      · have hk : k ≠ n := by
          intro hkn
          subst hkn
          simp only [List.map_cons, List.nodup_cons] at hnd
          exact hnd.1 (List.mem_map_of_mem Prod.fst ht)
        have hnd' : (rest.map Prod.fst).Nodup := by
          simp only [List.map_cons, List.nodup_cons] at hnd
          exact hnd.2
        simp only [lookupDecl, beq_eq_false_iff_ne.mpr hk, Bool.false_eq_true,
          if_false]
        exact mem_lookupDecl rest hnd' n d ht

theorem lookupDecl_exists : ∀ (g : Declarations) (n : String),
    n ∈ g.map Prod.fst → ∃ d, lookupDecl g n = some d
  | [], n => by simp
  | (k, v) :: rest, n => by
      intro hmem
      by_cases h : (k == n) = true
      · exact ⟨v, by simp [lookupDecl, h]⟩
      · have hk : k ≠ n := by simpa using h
        simp only [List.map_cons, List.mem_cons] at hmem
        rcases hmem with he | ht
        · exact absurd he.symm hk
        · obtain ⟨d, hd⟩ := lookupDecl_exists rest n ht
          exact ⟨d, by simp [lookupDecl, h, hd]⟩

theorem visitEach_isSome (f : String → TopoState → Option TopoState) :
    ∀ (ns : List String), (∀ n ∈ ns, ∀ s, (f n s).isSome) →
      ∀ s, (visitEach f ns s).isSome
  | [], _, s => by simp [visitEach]
  | n :: ns, hf, s => by
      obtain ⟨s₁, hs₁⟩ := Option.isSome_iff_exists.mp (hf n (List.mem_cons_self n ns) s)
      simp only [visitEach, hs₁]
      exact visitEach_isSome f ns (fun m hm s' => hf m (List.mem_cons_of_mem n hm) s') s₁

/-- The invariant maintained by the sort: the mark flags record exactly the
names already appended to the result (in reverse order of emission), no
name is emitted twice, every emitted entry comes from the declaration dict,
and every emitted declaration's dependencies all occur strictly earlier in
the result. -/
def TopoInv (g : Declarations) (s : TopoState) : Prop :=
  s.marked = (s.result.map Prod.fst).reverse
  ∧ (s.result.map Prod.fst).Nodup
  ∧ (∀ p ∈ s.result, lookupDecl g p.1 = some p.2)
  ∧ ∀ j (hj : j < s.result.length), ∀ y ∈ (s.result.get ⟨j, hj⟩).2.dependencies,
      ∃ i, i < j ∧ (s.result.map Prod.fst)[i]? = some y

theorem topoSorted_append (res : List (String × HeaderDeclaration)) (n : String)
    (decl : HeaderDeclaration)
    (h : ∀ j (hj : j < res.length), ∀ y ∈ (res.get ⟨j, hj⟩).2.dependencies,
        ∃ i, i < j ∧ (res.map Prod.fst)[i]? = some y)
    (hdeps : ∀ y ∈ decl.dependencies, y ∈ res.map Prod.fst) :
    ∀ j (hj : j < (res ++ [(n, decl)]).length),
      ∀ y ∈ ((res ++ [(n, decl)]).get ⟨j, hj⟩).2.dependencies,
        ∃ i, i < j ∧ ((res ++ [(n, decl)]).map Prod.fst)[i]? = some y := by
  intro j hj y hy
  have hj' : j < res.length + 1 := by
    simpa using hj
  by_cases hlt : j < res.length
  · have hget : (res ++ [(n, decl)]).get ⟨j, hj⟩ = res.get ⟨j, hlt⟩ := by
      simp [List.get_eq_getElem, List.getElem_append_left hlt]
    rw [hget] at hy
    obtain ⟨i, hi, hmem⟩ := h j hlt y hy
    refine ⟨i, hi, ?_⟩
    rw [List.map_append, List.getElem?_append_left (by rw [List.length_map]; omega)]
    exact hmem
  · have hj'' : j = res.length := by omega
    subst hj''
    have hget : (res ++ [(n, decl)]).get ⟨res.length, hj⟩ = (n, decl) := by
      simp only [List.get_eq_getElem]
      exact List.getElem_concat_length res (n, decl) res.length rfl _
    rw [hget] at hy
    obtain ⟨i, hilt, hi⟩ := List.mem_iff_getElem.mp (hdeps y hy)
    rw [List.length_map] at hilt
    refine ⟨i, hilt, ?_⟩
    rw [List.map_append,
      List.getElem?_append_left (by rw [List.length_map]; omega),
      List.getElem?_eq_getElem (by rw [List.length_map]; omega)]
    rw [← hi]

theorem visitEach_post (g : Declarations) (rank : String → Nat)
    (f : String → TopoState → Option TopoState)
    (hf : ∀ n s s', f n s = some s' → TopoInv g s →
      TopoInv g s' ∧ (∀ z ∈ s.marked, z ∈ s'.marked) ∧ n ∈ s'.marked
        ∧ (∀ z ∈ s'.marked, z ∈ s.marked ∨ rank z ≤ rank n)) :
    ∀ (ns : List String) (s s' : TopoState), visitEach f ns s = some s' →
      TopoInv g s →
      TopoInv g s' ∧ (∀ z ∈ s.marked, z ∈ s'.marked) ∧ (∀ n ∈ ns, n ∈ s'.marked)
        ∧ (∀ z ∈ s'.marked, z ∈ s.marked ∨ ∃ n ∈ ns, rank z ≤ rank n)
  | [], s, s', h, hinv => by
      simp only [visitEach, Option.some.injEq] at h
      subst h
      exact ⟨hinv, fun z hz => hz, by simp, fun z hz => Or.inl hz⟩
  | n :: ns, s, s', h, hinv => by
      cases hn : f n s with
      | none => rw [visitEach, hn] at h; exact absurd h (by simp)
      | some s₁ =>
          rw [visitEach, hn] at h
          have h1 := hf n s s₁ hn hinv
          have h2 := visitEach_post g rank f hf ns s₁ s' h h1.1
          refine ⟨h2.1, fun z hz => h2.2.1 z (h1.2.1 z hz), ?_, ?_⟩
          · intro m hm
            rcases List.mem_cons.mp hm with he | hm'
            · subst he
              exact h2.2.1 m h1.2.2.1
            · exact h2.2.2.1 m hm'
          · intro z hz
            rcases h2.2.2.2 z hz with hz₁ | hrest
            · rcases h1.2.2.2 z hz₁ with hz₀ | hrk
              · exact Or.inl hz₀
              · exact Or.inr ⟨n, List.mem_cons_self n ns, hrk⟩
            · obtain ⟨m, hm, hrk⟩ := hrest
              exact Or.inr ⟨m, List.mem_cons_of_mem n hm, hrk⟩

theorem toposortVisit_post (g : Declarations) (rank : String → Nat)
    (hrank : ∀ n d, lookupDecl g n = some d → ∀ y ∈ d.dependencies, rank y < rank n) :
    ∀ (fuel : Nat) (n : String) (s s' : TopoState),
      toposortVisit g fuel n s = some s' → TopoInv g s →
      TopoInv g s' ∧ (∀ z ∈ s.marked, z ∈ s'.marked) ∧ n ∈ s'.marked
        ∧ (∀ z ∈ s'.marked, z ∈ s.marked ∨ rank z ≤ rank n) := by
  intro fuel
  induction fuel with
  | zero =>
      intro n s s' h
      exact absurd h (by simp [toposortVisit])
  | succ fuel ih =>
      intro n s s' h hinv
      cases hl : lookupDecl g n with
      | none =>
          simp only [toposortVisit, hl] at h
          exact Option.noConfusion h
      | some decl =>
          simp only [toposortVisit, hl] at h
          by_cases hm : n ∈ s.marked
          · rw [if_pos hm] at h
            injection h with h
            subst h
            exact ⟨hinv, fun z hz => hz, hm, fun z hz => Or.inl hz⟩
          · rw [if_neg hm] at h
            cases hv : visitEach (toposortVisit g fuel) decl.dependencies s with
            | none => rw [hv] at h; exact absurd h (by simp)
            | some s₁ =>
                rw [hv] at h
                injection h with h
                subst h
                obtain ⟨hinv₁, hmono₁, hdeps₁, hbdd₁⟩ :=
                  visitEach_post g rank (toposortVisit g fuel)
                    (fun m s₂ s₃ hm2 hi2 => ih m s₂ s₃ hm2 hi2)
                    decl.dependencies s s₁ hv hinv
                have hn₁ : n ∉ s₁.marked := by
                  intro hcon
                  rcases hbdd₁ n hcon with h0 | hex
                  · exact hm h0
                  · obtain ⟨m, hm', hrk⟩ := hex
                    have := hrank n decl hl m hm'
                    omega
                obtain ⟨hsync, hnd, hlk, hsort⟩ := hinv₁
                have hdeps_res : ∀ y ∈ decl.dependencies, y ∈ s₁.result.map Prod.fst := by
                  intro y hy
                  have := hdeps₁ y hy
                  rw [hsync] at this
                  exact List.mem_reverse.mp this
                refine ⟨⟨?_, ?_, ?_, ?_⟩, ?_, ?_, ?_⟩
                · simp only [List.map_append, List.map_cons, List.map_nil,
                    List.reverse_append, List.reverse_cons, List.reverse_nil,
                    List.nil_append, List.singleton_append, hsync]
                · rw [List.map_append, List.nodup_append]
                  refine ⟨hnd, by simp, ?_⟩
                  intro a ha han
                  simp only [List.map_cons, List.map_nil, List.mem_singleton] at han
                  subst han
                  exact hn₁ (by rw [hsync]; exact List.mem_reverse.mpr ha)
                · intro p hp
                  rcases List.mem_append.mp hp with hp₁ | hp₂
                  · exact hlk p hp₁
                  · simp only [List.mem_singleton] at hp₂
                    subst hp₂
                    exact hl
                · exact topoSorted_append s₁.result n decl hsort hdeps_res
                · intro z hz
                  exact List.mem_cons_of_mem n (hmono₁ z hz)
                · exact List.mem_cons_self n _
                · intro z hz
                  rcases List.mem_cons.mp hz with he | hz₁
                  · subst he
                    exact Or.inr (le_refl _)
                  · rcases hbdd₁ z hz₁ with h0 | hex
                    · exact Or.inl h0
                    · obtain ⟨m, hm', hrk⟩ := hex
                      exact Or.inr (le_of_lt
                        (lt_of_le_of_lt hrk (hrank n decl hl m hm')))

theorem toposortVisit_isSome (g : Declarations) (rank : String → Nat)
    (hclosed : ∀ n d, lookupDecl g n = some d →
      ∀ y ∈ d.dependencies, y ∈ g.map Prod.fst)
    (hrank : ∀ n d, lookupDecl g n = some d →
      ∀ y ∈ d.dependencies, rank y < rank n) :
    ∀ (fuel : Nat) (n : String), rank n < fuel → n ∈ g.map Prod.fst →
      ∀ s, (toposortVisit g fuel n s).isSome := by
  intro fuel
  induction fuel with
  | zero =>
      intro n h
      exact absurd h (Nat.not_lt_zero _)
  | succ fuel ih =>
      intro n hr hmem s
      obtain ⟨d, hd⟩ := lookupDecl_exists g n hmem
      simp only [toposortVisit, hd]
      by_cases hm : n ∈ s.marked
      · rw [if_pos hm]; simp
      · rw [if_neg hm]
        have hsub : ∀ m ∈ d.dependencies, ∀ s₂, (toposortVisit g fuel m s₂).isSome := by
          intro m hm' s₂
          have hr' : rank m < fuel := by
            have := hrank n d hd m hm'
            omega
          exact ih m hr' (hclosed n d hd m hm') s₂
        obtain ⟨s₁, hs₁⟩ := Option.isSome_iff_exists.mp
          (visitEach_isSome (toposortVisit g fuel) d.dependencies hsub s)
        rw [hs₁]
        simp

/-- C1: on every acyclic dependency graph held in the emitter context —
acyclicity encoded, as for any finite graph, by a rank function that
strictly decreases along dependency edges and is bounded by the number of
entries — `toposort_declarations` succeeds, its result lists every
declaration exactly once and nothing else, and whenever declaration `x`
lists `y` as a dependency, `y` appears strictly before `x` in the result
(diamond graphs included; see the witness). -/
theorem C1_toposort_declarations (g : Declarations) (rank : String → Nat)
    (hnodup : (g.map Prod.fst).Nodup)
    (hclosed : ∀ x d, (x, d) ∈ g → ∀ y ∈ d.dependencies, y ∈ g.map Prod.fst)
    (hrank : ∀ x d, (x, d) ∈ g → ∀ y ∈ d.dependencies, rank y < rank x)
    (hbound : ∀ k ∈ g.map Prod.fst, rank k ≤ g.length) :
    ∃ res, toposort_declarations g = some res
      ∧ (∀ k ∈ g.map Prod.fst, (res.map Prod.fst).count k = 1)
      ∧ (∀ n ∈ res.map Prod.fst, n ∈ g.map Prod.fst)
      ∧ (∀ x d, (x, d) ∈ g → ∀ y ∈ d.dependencies,
          ∃ i j : Nat, i < j ∧ (res.map Prod.fst)[i]? = some y
            ∧ (res.map Prod.fst)[j]? = some x) := by
  have hclosed' : ∀ n d, lookupDecl g n = some d →
      ∀ y ∈ d.dependencies, y ∈ g.map Prod.fst :=
    fun n d h => hclosed n d (lookupDecl_mem g n d h)
  have hrank' : ∀ n d, lookupDecl g n = some d →
      ∀ y ∈ d.dependencies, rank y < rank n :=
    fun n d h => hrank n d (lookupDecl_mem g n d h)
  have hinv₀ : TopoInv g ⟨[], []⟩ := by
    refine ⟨rfl, by simp, by simp, ?_⟩
    intro j hj
    simp at hj
  have hall : ∀ n ∈ g.map Prod.fst, ∀ s,
      (toposortVisit g (g.length + 1) n s).isSome := by
    intro n hn s
    exact toposortVisit_isSome g rank hclosed' hrank' (g.length + 1) n
      (by have := hbound n hn; omega) hn s
  obtain ⟨sf, hsf⟩ := Option.isSome_iff_exists.mp
    (visitEach_isSome (toposortVisit g (g.length + 1)) (g.map Prod.fst) hall ⟨[], []⟩)
  obtain ⟨hinvf, _, hallmk, _⟩ :=
    visitEach_post g rank (toposortVisit g (g.length + 1))
      (fun m s₂ s₃ hm2 hi2 => toposortVisit_post g rank hrank' (g.length + 1) m s₂ s₃ hm2 hi2)
      (g.map Prod.fst) ⟨[], []⟩ sf hsf hinv₀
  obtain ⟨hsync, hnd, hlk, hsort⟩ := hinvf
  refine ⟨sf.result, ?_, ?_, ?_, ?_⟩
  · rw [toposort_declarations, hsf]
  · intro k hk
    have hkmem : k ∈ sf.result.map Prod.fst := by
      have := hallmk k hk
      rw [hsync] at this
      exact List.mem_reverse.mp this
    exact List.count_eq_one_of_mem hnd hkmem
  · intro n hn
    obtain ⟨p, hp, hpn⟩ := List.mem_map.mp hn
    subst hpn
    exact List.mem_map_of_mem Prod.fst (lookupDecl_mem g p.1 p.2 (hlk p hp))
  · intro x d hxd y hy
    have hxk : x ∈ g.map Prod.fst := List.mem_map_of_mem Prod.fst hxd
    have hxmem : x ∈ sf.result.map Prod.fst := by
      have := hallmk x hxk
      rw [hsync] at this
      exact List.mem_reverse.mp this
    obtain ⟨j, hjlt, hjx⟩ := List.mem_iff_getElem.mp hxmem
    rw [List.length_map] at hjlt
    have hentry : (sf.result.get ⟨j, hjlt⟩).1 = x := by
      have : (sf.result.map Prod.fst)[j] = (sf.result.get ⟨j, hjlt⟩).1 := by
        simp [List.get_eq_getElem]
      rw [← this, hjx]
    have hlkj := hlk _ (sf.result.get_mem j hjlt)
    rw [hentry] at hlkj
    have hdeq : (sf.result.get ⟨j, hjlt⟩).2 = d := by
      have := mem_lookupDecl g hnodup x d hxd
      rw [this] at hlkj
      injection hlkj with h
      exact h.symm
    obtain ⟨i, hij, hiy⟩ := hsort j hjlt y (by rw [hdeq]; exact hy)
    refine ⟨i, j, hij, hiy, ?_⟩
    rw [List.getElem?_eq_getElem (by rw [List.length_map]; omega), hjx]

/-- The spec's diamond scenario: X depends on Y and Z, both of which depend
on W. -/
def diamondGraph : Declarations :=
  [("X", ⟨["Y", "Z"], []⟩), ("Y", ⟨["W"], []⟩),
   ("Z", ⟨["W"], []⟩), ("W", ⟨[], []⟩)]

/-- Rank function witnessing the diamond graph's acyclicity. -/
def diamondRank (n : String) : Nat :=
  if n = "X" then 2 else if n = "W" then 0 else 1

/-- Witness for C1 on the diamond graph, with an explicit rank function. -/
theorem C1_witness :
    ∃ res, toposort_declarations diamondGraph = some res
      ∧ (∀ k ∈ diamondGraph.map Prod.fst, (res.map Prod.fst).count k = 1)
      ∧ (∀ n ∈ res.map Prod.fst, n ∈ diamondGraph.map Prod.fst)
      ∧ (∀ x d, (x, d) ∈ diamondGraph → ∀ y ∈ d.dependencies,
          ∃ i j : Nat, i < j ∧ (res.map Prod.fst)[i]? = some y
            ∧ (res.map Prod.fst)[j]? = some x) :=
  C1_toposort_declarations diamondGraph diamondRank
    (by decide)
    (by
      intro x d hxd
      simp only [diamondGraph, List.mem_cons, List.not_mem_nil, or_false,
        Prod.mk.injEq] at hxd
      rcases hxd with ⟨rfl, rfl⟩ | ⟨rfl, rfl⟩ | ⟨rfl, rfl⟩ | ⟨rfl, rfl⟩ <;> decide)
    (by
      intro x d hxd
      simp only [diamondGraph, List.mem_cons, List.not_mem_nil, or_false,
        Prod.mk.injEq] at hxd
      rcases hxd with ⟨rfl, rfl⟩ | ⟨rfl, rfl⟩ | ⟨rfl, rfl⟩ | ⟨rfl, rfl⟩ <;> decide)
    (by decide)

end Mypyc
